import Mathlib

/-!
Verification of the image export core of pdfminer.six (`pdfminer/image.py`):
export-strategy classification, raw-bitmap pixel-format reconstruction, the
JBIG2 segment container transcoder, output naming, and output-directory
creation.  Python code is shallowly embedded: byte strings become `List Nat`
(each element a byte value), the filter chain becomes a list of entries
carrying the filter kind-class and the optional resolved `JBIG2Globals`
stream payload, exact rational arithmetic models the channel-count division,
and the filesystem side effects of each save routine are recorded explicitly
in an outcome structure.
-/

/-- Filter kind equivalence classes.  The source tests membership of the raw
filter name in `LITERALS_DCT_DECODE`, `LITERALS_JPX_DECODE` and
`LITERALS_JBIG2_DECODE`; the embedding works with the induced class of each
name, `other` standing for any name in none of the three literal sets. -/
inductive FilterKind
  | dct
  | jpx
  | jbig2
  | other
deriving DecidableEq, Repr

/-- One entry of `image.stream.get_filters()`: the filter's kind class and,
when its parameter dictionary has a `JBIG2Globals` entry, the payload bytes
of the resolved globals stream (`params["JBIG2Globals"].resolve().get_data()`). -/
structure FilterEntry where
  kind : FilterKind
  globals : Option (List Nat)
deriving DecidableEq, Repr

/-- The slice of an `LTImage` that `ImageWriter` reads: `image.name`,
`image.srcsize = (width, height)`, `image.bits`, the filter chain and the
bytes returned by `image.stream.get_data()`. -/
structure LTImage where
  name : String
  width : Nat
  height : Nat
  bits : Nat
  filters : List FilterEntry
  data : List Nat
deriving DecidableEq, Repr

/-- The four export strategies `ImageWriter.export_image` dispatches to. -/
inductive Strategy
  | rawBitmap
  | passthroughJPEG
  | passthroughJPEG2000
  | jbig2Transcode
deriving DecidableEq, Repr

/-- Pixel formats of the raw-bitmap path (`mode` strings "1", "L", "RGB",
"CMYK" of `_save_bytes`). -/
inductive PixelFormat
  | bilevel
  | grayscale
  | rgb
  | cmyk
deriving DecidableEq, Repr

/-- Structural failures of the JBIG2 segment container parse. -/
inductive Jbig2Error
  | malformedSegmentHeader
  | corruptSegmentCount
  | unsupportedSegmentLength
deriving DecidableEq, Repr

/-- Failures of the save routines.  `zeroDivisionError` is the
`ZeroDivisionError` of the channels computation at zero width, height or
bit depth; `jbig2GlobalsKeyError` is the `KeyError` raised by
`params["JBIG2Globals"]` when a JBIG2 filter entry carries no globals
parameter; `segmentError` wraps a container parse failure. -/
inductive SaveError
  | unsupportedPixelFormat
  | zeroDivisionError
  | missingImagingCapability
  | invalidGlobalsMultiplicity
  | jbig2GlobalsKeyError
  | segmentError (e : Jbig2Error)
deriving DecidableEq, Repr

/-- `ImageWriter._is_jbig2_iamge` (name kept with the source's typo): scans
the whole filter chain for a JBIG2-family entry. -/
def is_jbig2_iamge (filters : List FilterEntry) : Bool :=
  filters.any (fun f => f.kind == FilterKind.jbig2)

/-- The dispatch of `ImageWriter.export_image`: empty chain saves raw bytes;
else a DCT-family last filter saves as JPEG; else a JPX-family last filter
saves as JPEG 2000; else any JBIG2-family entry anywhere triggers the JBIG2
transcode; else raw bytes. -/
def export_image_strategy (filters : List FilterEntry) : Strategy :=
  match filters.getLast? with
  | none => Strategy.rawBitmap
  | some last =>
    if last.kind = FilterKind.dct then Strategy.passthroughJPEG
    else if last.kind = FilterKind.jpx then Strategy.passthroughJPEG2000
    else if is_jbig2_iamge filters then Strategy.jbig2Transcode
    else Strategy.rawBitmap

/-- The candidate name `"%s.%d%s" % (image.name, img_index, ext)` built inside
the collision loop of `ImageWriter._create_unique_image_name`. -/
def cand_name (base ext : String) (i : Nat) : String :=
  base ++ "." ++ Nat.repr i ++ ext

/-- The full sequence of names tried by `_create_unique_image_name`:
first `base ++ ext`, then `cand_name base ext 0`, `cand_name base ext 1`, ... -/
def name_seq (base ext : String) : Nat → String
  | 0 => base ++ ext
  | k + 1 => cand_name base ext k

/-- The `while os.path.exists(path)` loop of `_create_unique_image_name`,
with the directory snapshot as the list of names already present.  The fuel
argument only bounds the iteration count; `dir.length + 1` iterations always
suffice because the candidate names are pairwise distinct. -/
def unique_name_loop (dir : List String) (base ext : String) :
    Nat → String → Nat → String
  | 0, name, _ => name
  | fuel + 1, name, i =>
    if name ∈ dir then unique_name_loop dir base ext fuel (cand_name base ext i) (i + 1)
    else name

/-- `ImageWriter._create_unique_image_name` over a directory snapshot. -/
def create_unique_image_name (dir : List String) (base ext : String) : String :=
  unique_name_loop dir base ext (dir.length + 1) (base ++ ext) 0

/-- The exact-rational channel count of `ImageWriter._save_bytes`:
`len(data) / width / height / (bits / 8)`.  Python evaluates the division
chain left to right and raises `ZeroDivisionError` as soon as a divisor is
zero, so the value exists only when `width`, `height` and `bits` are all
nonzero; `none` is that exception. -/
def channel_count (img : LTImage) : Option Rat :=
  if img.width = 0 ∨ img.height = 0 ∨ img.bits = 0 then none
  else
    some ((img.data.length : Rat) / (img.width : Rat) / (img.height : Rat) /
      ((img.bits : Rat) / 8))

/-- The `mode` selection chain of `_save_bytes`; `none` is the fall-through
in which `mode` stays unbound and the save fails. -/
def pixel_mode (bits : Nat) (channels : Rat) : Option PixelFormat :=
  if bits = 1 then some PixelFormat.bilevel
  else if bits = 8 ∧ channels = 1 then some PixelFormat.grayscale
  else if bits = 8 ∧ channels = 3 then some PixelFormat.rgb
  else if bits = 8 ∧ channels = 4 then some PixelFormat.cmyk
  else none

deriving instance DecidableEq for Except

/-- Observable outcome of `_save_bytes`: the files newly present in the
output directory when the call returns or raises, the `(mode, bytes)` pair
handed to `PIL.Image.frombytes` (if reached), and the returned name or the
error raised. -/
structure BytesOutcome where
  files_created : List String
  handed : Option (PixelFormat × List Nat)
  result : Except SaveError String
deriving DecidableEq, Repr

/-- `ImageWriter._save_bytes`.  The channels division runs before
`open(path, "wb")`, so a `ZeroDivisionError` at zero width, height or bit
depth creates no file; otherwise the output file is created before the
Pillow import and before the `mode` chain runs, so it is present in every
later outcome, error or not.  `pil_available` models whether the
`from PIL import Image` inside the `with` block succeeds. -/
def save_bytes (dir : List String) (pil_available : Bool) (img : LTImage) :
    BytesOutcome :=
  let name := create_unique_image_name dir img.name ".png"
  match channel_count img with
  | none => ⟨[], none, Except.error SaveError.zeroDivisionError⟩
  | some channels =>
    if pil_available = false then
      ⟨[name], none, Except.error SaveError.missingImagingCapability⟩
    else
      match pixel_mode img.bits channels with
      | none => ⟨[name], none, Except.error SaveError.unsupportedPixelFormat⟩
      | some m => ⟨[name], some (m, img.data), Except.ok name⟩

/-- Python `data.rstrip(b"\n")`: drop every trailing byte equal to `0x0A`. -/
def rstrip_newlines (l : List Nat) : List Nat :=
  (l.reverse.dropWhile (fun b => b == 10)).reverse

/-- The globals-collection loop of `_save_jbig2`: for every JBIG2-family
entry it evaluates `params["JBIG2Globals"]`, raising `KeyError` when the
parameter is absent, and otherwise resolves the globals stream. -/
def collect_globals : List FilterEntry → Except SaveError (List (List Nat))
  | [] => Except.ok []
  | f :: rest =>
    if f.kind = FilterKind.jbig2 then
      match f.globals with
      | none => Except.error SaveError.jbig2GlobalsKeyError
      | some g =>
        match collect_globals rest with
        | Except.error e => Except.error e
        | Except.ok gs => Except.ok (g :: gs)
    else collect_globals rest

/-- Number of JBIG2-family filter entries that carry a globals reference. -/
def count_jbig2_globals (filters : List FilterEntry) : Nat :=
  (filters.filter (fun f => f.kind == FilterKind.jbig2 && f.globals.isSome)).length

/-- Take exactly `n` bytes off the front of a buffer, or `none` when the
buffer is too short. -/
def take_exact : Nat → List Nat → Option (List Nat × List Nat)
  | 0, buf => some ([], buf)
  | _ + 1, [] => none
  | n + 1, b :: rest =>
    match take_exact n rest with
    | none => none
    | some (xs, r) => some (b :: xs, r)

/-- Big-endian value of a byte list. -/
def be_val (bs : List Nat) : Nat :=
  bs.foldl (fun a b => a * 256 + b) 0

/-- Big-endian serialization of a value into exactly `n` bytes. -/
def write_be_bytes : Nat → Nat → List Nat
  | 0, _ => []
  | n + 1, v => write_be_bytes n (v / 256) ++ [v % 256]

/-- Read one big-endian `n`-byte field. -/
def read_be (n : Nat) (buf : List Nat) : Option (Nat × List Nat) :=
  match take_exact n buf with
  | none => none
  | some (xs, r) => some (be_val xs, r)

/-- Modelled from the spec: the referred-to-segment count and retention
flags of a JBIG2 segment header (`pdfminer/jbig2.py` is not among the
provided sources).  The short form keeps the raw one-byte field (count in
the top 3 bits, retention flags in the rest); the long form keeps the
29-bit count and the raw retention bitmask bytes. -/
inductive RefCountInfo
  | short (raw : Nat)
  | long (count : Nat) (retention : List Nat)
deriving DecidableEq, Repr

/-- Referred-to segment count carried by either form. -/
def ref_count : RefCountInfo → Nat
  | RefCountInfo.short raw => raw / 32
  | RefCountInfo.long c _ => c

/-- Modelled from the spec: one parsed JBIG2 segment record (missing
`pdfminer/jbig2.py`): segment number, raw header flags byte, referred-to
count/retention field, referred-to segment numbers, page association and
payload bytes. -/
structure Segment where
  number : Nat
  flags : Nat
  refInfo : RefCountInfo
  referredNumbers : List Nat
  pageAssoc : Nat
  payload : List Nat
deriving DecidableEq, Repr

/-- Width of the page-association field: bit 6 of the flags byte selects
1 byte (0) or 4 bytes (1). -/
def page_assoc_size (flags : Nat) : Nat :=
  if flags / 64 % 2 = 1 then 4 else 1

/-- Width of each referred-to segment number, sized by the current
segment's own number: 1 byte when it is at most 256, 2 bytes when at most
65536, else 4 bytes. -/
def ref_number_size (number : Nat) : Nat :=
  if number ≤ 256 then 1 else if number ≤ 65536 then 2 else 4

/-- Read `count` referred-to segment numbers of width `w` bytes each. -/
def read_refs (w : Nat) : Nat → List Nat → Option (List Nat × List Nat)
  | 0, buf => some ([], buf)
  | c + 1, buf =>
    match read_be w buf with
    | none => none
    | some (v, r) =>
      match read_refs w c r with
      | none => none
      | some (vs, r2) => some (v :: vs, r2)

/-- Modelled from the spec: parse of the referred-to count and retention
field (missing `pdfminer/jbig2.py`).  `b` is the first byte of the field:
if its top 3 bits differ from 7 it is the whole short-form field; otherwise
the 4-byte value starting at `b` with the top 3 bits masked off is the
count, followed by a retention bitmask of `ceil((count + 1) / 8)` bytes. -/
def parse_ref_info (b : Nat) (r : List Nat) : Option (RefCountInfo × List Nat) :=
  if b / 32 = 7 then
    match take_exact 3 r with
    | none => none
    | some (rest3, ra) =>
      match take_exact ((be_val (b :: rest3) % 2 ^ 29 + 8) / 8) ra with
      | none => none
      | some (ret, rb) =>
        some (RefCountInfo.long (be_val (b :: rest3) % 2 ^ 29) ret, rb)
  else some (RefCountInfo.short b, r)

/-- Modelled from the spec: one segment-header-plus-payload parse of the
JBIG2 segment reader (missing `pdfminer/jbig2.py`), returning the segment
and the unconsumed rest of the buffer.  Steps: 4-byte big-endian segment
number; flags byte (low 6 bits type, bit 6 page-association width); the
referred-to count/retention field; `count` referred-to numbers sized by the
current segment number; page association; 4-byte data length, with the
all-bits-set sentinel unsupported; then exactly `dataLength` payload
bytes. -/
def parse_segment (buf : List Nat) : Except Jbig2Error (Segment × List Nat) :=
  match read_be 4 buf with
  | none => Except.error Jbig2Error.malformedSegmentHeader
  | some (number, r1) =>
    match r1 with
    | [] => Except.error Jbig2Error.malformedSegmentHeader
    | flags :: r2 =>
      match r2 with
      | [] => Except.error Jbig2Error.malformedSegmentHeader
      | b :: r3 =>
        match parse_ref_info b r3 with
        | none => Except.error Jbig2Error.malformedSegmentHeader
        | some (info, r4) =>
          match read_refs (ref_number_size number) (ref_count info) r4 with
          | none => Except.error Jbig2Error.malformedSegmentHeader
          | some (refs, r5) =>
            match read_be (page_assoc_size flags) r5 with
            | none => Except.error Jbig2Error.malformedSegmentHeader
            | some (pa, r6) =>
              match read_be 4 r6 with
              | none => Except.error Jbig2Error.malformedSegmentHeader
              | some (dataLength, r7) =>
                if dataLength = 4294967295 then
                  Except.error Jbig2Error.unsupportedSegmentLength
                else
                  match take_exact dataLength r7 with
                  | none => Except.error Jbig2Error.malformedSegmentHeader
                  | some (payload, r8) =>
                    Except.ok (⟨number, flags, info, refs, pa, payload⟩, r8)

/-- Modelled from the spec: the segment loop of the JBIG2 segment reader
(missing `pdfminer/jbig2.py`): parse segment headers until the buffer is
exhausted.  The fuel argument only bounds the iteration count; every
successful header parse consumes at least the 4 number bytes, so
`buf.length` iterations always suffice and the fuel-exhaustion branch is
unreachable. -/
def get_segments_fuel : Nat → List Nat → Except Jbig2Error (List Segment)
  | _, [] => Except.ok []
  | 0, _ :: _ => Except.error Jbig2Error.malformedSegmentHeader
  | fuel + 1, b :: rest0 =>
    match parse_segment (b :: rest0) with
    | Except.error e => Except.error e
    | Except.ok (s, rest) =>
      match get_segments_fuel fuel rest with
      | Except.error e => Except.error e
      | Except.ok segs => Except.ok (s :: segs)

/-- Modelled from the spec: `JBIG2StreamReader.get_segments` over an
assembled input buffer (missing `pdfminer/jbig2.py`). -/
def get_segments (buf : List Nat) : Except Jbig2Error (List Segment) :=
  get_segments_fuel buf.length buf

/-- Modelled from the spec: serialization of the referred-to
count/retention field by the JBIG2 segment writer (missing
`pdfminer/jbig2.py`), using the identical field widths and values read. -/
def ref_info_bytes : RefCountInfo → List Nat
  | RefCountInfo.short raw => [raw]
  | RefCountInfo.long c ret => write_be_bytes 4 (7 * 2 ^ 29 + c) ++ ret

/-- Serialization of the referred-to segment numbers, width `w` each. -/
def write_refs (w : Nat) : List Nat → List Nat
  | [] => []
  | v :: vs => write_be_bytes w v ++ write_refs w vs

/-- Modelled from the spec: re-serialization of one segment by the JBIG2
segment writer (missing `pdfminer/jbig2.py`): header fields re-emitted with
the identical widths and values read by the reader, payload verbatim. -/
def serialize_segment (s : Segment) : List Nat :=
  write_be_bytes 4 s.number ++ s.flags :: ref_info_bytes s.refInfo ++
    write_refs (ref_number_size s.number) s.referredNumbers ++
    write_be_bytes (page_assoc_size s.flags) s.pageAssoc ++
    write_be_bytes 4 s.payload.length ++ s.payload

/-- Serialization of a segment sequence in original order. -/
def write_segments : List Segment → List Nat
  | [] => []
  | s :: rest => serialize_segment s ++ write_segments rest

/-- Modelled from the spec: the fixed 8-byte JBIG2 file identifier emitted
by the segment writer (missing `pdfminer/jbig2.py`). -/
def jbig2_file_magic : List Nat :=
  [151, 74, 66, 50, 13, 10, 26, 10]

/-- Modelled from the spec: the file-organization flags byte of the
standalone container profile: sequential organization, unknown page
count (missing `pdfminer/jbig2.py`). -/
def jbig2_file_org_flags : Nat := 3

/-- Modelled from the spec: `JBIG2StreamWriter.write_file` (missing
`pdfminer/jbig2.py`): the fixed file identifier, one flags byte, then every
segment re-serialized in order. -/
def write_container (segs : List Segment) : List Nat :=
  jbig2_file_magic ++ jbig2_file_org_flags :: write_segments segs

/-- Input assembly of `_save_jbig2`: the globals payload, when present, with
trailing newline bytes stripped, concatenated with the per-image payload. -/
def assemble_input : Option (List Nat) → List Nat → List Nat
  | none, img => img
  | some g, img => rstrip_newlines g ++ img

/-- The segment reader applied to the assembled input. -/
def read_segments (globals : Option (List Nat)) (img : List Nat) :
    Except Jbig2Error (List Segment) :=
  get_segments (assemble_input globals img)

/-- Observable outcome of `_save_jbig2`: files newly present in the output
directory when the call returns or raises, the data streams read with
`get_data()` in order, the buffer handed to the segment reader (if
reached), and the returned name or the error raised. -/
structure Jbig2Outcome where
  files_created : List String
  bytes_read : List (List Nat)
  reader_input : Option (List Nat)
  result : Except SaveError String
deriving DecidableEq, Repr

/-- `ImageWriter._save_jbig2`.  The output file is created by
`open(path, "wb")` before the globals loop runs, so it is present in every
outcome.  The globals loop may raise `KeyError`; more than one collected
globals stream raises `PDFValueError` before any stream data is read;
otherwise the assembled buffer is parsed into segments and rewritten. -/
def save_jbig2 (dir : List String) (img : LTImage) : Jbig2Outcome :=
  let name := create_unique_image_name dir img.name ".jb2"
  match collect_globals img.filters with
  | Except.error e => ⟨[name], [], none, Except.error e⟩
  | Except.ok gs =>
    if 1 < gs.length then
      ⟨[name], [], none, Except.error SaveError.invalidGlobalsMultiplicity⟩
    else
      match gs with
      | [g] =>
        let input := rstrip_newlines g ++ img.data
        match get_segments input with
        | Except.error e =>
          ⟨[name], [g, img.data], some input, Except.error (SaveError.segmentError e)⟩
        | Except.ok _ => ⟨[name], [g, img.data], some input, Except.ok name⟩
      | _ =>
        let input := img.data
        match get_segments input with
        | Except.error e =>
          ⟨[name], [img.data], some input, Except.error (SaveError.segmentError e)⟩
        | Except.ok _ => ⟨[name], [img.data], some input, Except.ok name⟩

/-- Nonempty component-wise ancestors of a path, the path itself included;
`os.makedirs` creates exactly the missing ones. -/
def path_ancestors (p : List String) : List (List String) :=
  (List.range p.length).map (fun i => p.take (i + 1))

/-- `os.makedirs(p)`: the filesystem (a list of existing directory paths,
each a list of components) extended with every missing ancestor of `p`. -/
def makedirs (fs : List (List String)) (p : List String) : List (List String) :=
  fs ++ (path_ancestors p).filter (fun q => decide (q ∉ fs))

/-- `ImageWriter.__init__`: store the output directory and create it (with
parents) when `os.path.exists` reports it missing. -/
def image_writer_init (fs : List (List String)) (outdir : List String) :
    List (List String) :=
  if outdir ∈ fs then fs else makedirs fs outdir

/-- Decimal digit characters of `n`, most significant first; reference
function used to reason about `Nat.repr`. -/
def dec_digits (n : Nat) : List Char :=
  if n < 10 then [Nat.digitChar n]
  else dec_digits (n / 10) ++ [Nat.digitChar (n % 10)]
termination_by n
decreasing_by exact Nat.div_lt_self (by omega) (by omega)

/-- Decimal decoding of a digit-character list. -/
def dec_val (l : List Char) : Nat :=
  l.foldl (fun a c => a * 10 + (c.toNat - 48)) 0

/-- A bilevel image whose byte count gives the non-integral channel count
`8 / 3`: one data byte, width 3, height 1, one bit per component. -/
def bilevel_ragged_img : LTImage :=
  ⟨"img", 3, 1, 1, [], [0]⟩

/-- The spec's channel-inference example with 133 bytes: width 10,
height 10, 8 bits per component, no filters. -/
def png133_img : LTImage :=
  ⟨"img", 10, 10, 8, [], List.replicate 133 0⟩

/-- An image whose chain carries two globals-bearing JBIG2 entries. -/
def double_globals_img : LTImage :=
  ⟨"img", 4, 4, 1,
    [⟨FilterKind.jbig2, some [1]⟩, ⟨FilterKind.jbig2, some [2]⟩], [0]⟩

/-- A chain with one globals-less JBIG2 entry ahead of two globals-bearing
JBIG2 entries. -/
def mixed_globals_img : LTImage :=
  ⟨"img", 4, 4, 1,
    [⟨FilterKind.jbig2, none⟩, ⟨FilterKind.jbig2, some [1]⟩,
      ⟨FilterKind.jbig2, some [2]⟩], [0]⟩

/-- A JBIG2-classified image whose single JBIG2 entry carries no globals
reference. -/
def no_globals_img : LTImage :=
  ⟨"img", 4, 4, 1, [⟨FilterKind.jbig2, none⟩], [1, 2, 3]⟩

/-- A one-segment globals stream (segment number 0, type 0, no referred
segments, page 0, one payload byte) followed by one trailing newline. -/
def sample_globals : List Nat :=
  [0, 0, 0, 0, 0, 0, 0, 0, 0, 0, 1, 9, 10]

/-- A one-segment per-image stream (segment number 2, type 0, no referred
segments, page 0, two payload bytes). -/
def sample_image_bytes : List Nat :=
  [0, 0, 0, 2, 0, 0, 0, 0, 0, 0, 2, 7, 8]

/-- The spec's channel-inference example with 300 bytes: width 10,
height 10, 8 bits per component, no filters. -/
def png300_img : LTImage :=
  ⟨"img", 10, 10, 8, [], List.replicate 300 0⟩

/-- A JBIG2 image with exactly one globals-bearing entry, carrying
`sample_globals`, and `sample_image_bytes` as its stream data. -/
def single_globals_img : LTImage :=
  ⟨"img", 4, 4, 1, [⟨FilterKind.jbig2, some sample_globals⟩], sample_image_bytes⟩

/-- The two segments encoded by `sample_globals` (newline stripped) followed
by `sample_image_bytes`. -/
def sample_segments : List Segment :=
  [⟨0, 0, RefCountInfo.short 0, [], 0, [9]⟩,
    ⟨2, 0, RefCountInfo.short 0, [], 0, [7, 8]⟩]

/-- `is_jbig2_iamge` is the whole-chain scan for a JBIG2-family entry. -/
theorem is_jbig2_iamge_iff (fs : List FilterEntry) :
    is_jbig2_iamge fs = true ↔ ∃ f ∈ fs, f.kind = FilterKind.jbig2 := by
  simp [is_jbig2_iamge, List.any_eq_true]

/-- Claim C1: `export_image` selects the strategy by the exact precedence:
empty chain exports as raw bitmap; else a DCT-family last entry as
passthrough JPEG; else a JPX-family last entry as passthrough JPEG 2000;
else any JBIG2-family entry anywhere as JBIG2 transcode; else raw bitmap;
in particular `[JBIG2, DCT]` classifies as passthrough JPEG and
`[JBIG2, Other]` as JBIG2 transcode. -/
theorem c1_export_classifier :
    (export_image_strategy [] = Strategy.rawBitmap)
    ∧ (∀ fs e, fs.getLast? = some e → e.kind = FilterKind.dct →
        export_image_strategy fs = Strategy.passthroughJPEG)
    ∧ (∀ fs e, fs.getLast? = some e → e.kind = FilterKind.jpx →
        export_image_strategy fs = Strategy.passthroughJPEG2000)
    ∧ (∀ fs e, fs.getLast? = some e → e.kind ≠ FilterKind.dct →
        e.kind ≠ FilterKind.jpx → (∃ f ∈ fs, f.kind = FilterKind.jbig2) →
        export_image_strategy fs = Strategy.jbig2Transcode)
    ∧ (∀ fs e, fs.getLast? = some e → e.kind ≠ FilterKind.dct →
        e.kind ≠ FilterKind.jpx → (∀ f ∈ fs, f.kind ≠ FilterKind.jbig2) →
        export_image_strategy fs = Strategy.rawBitmap)
    ∧ (∀ a b : FilterEntry, a.kind = FilterKind.jbig2 → b.kind = FilterKind.dct →
        export_image_strategy [a, b] = Strategy.passthroughJPEG)
    ∧ (∀ a b : FilterEntry, a.kind = FilterKind.jbig2 → b.kind = FilterKind.other →
        export_image_strategy [a, b] = Strategy.jbig2Transcode) := by
  refine ⟨rfl, ?_, ?_, ?_, ?_, ?_, ?_⟩
  · intro fs e hl hk
    simp [export_image_strategy, hl, hk]
  · intro fs e hl hk
    simp [export_image_strategy, hl, hk]
  · intro fs e hl h1 h2 hex
    have hj : is_jbig2_iamge fs = true := (is_jbig2_iamge_iff fs).mpr hex
    simp [export_image_strategy, hl, h1, h2, hj]
  · intro fs e hl h1 h2 hall
    have hj : is_jbig2_iamge fs = false := by
      simp only [is_jbig2_iamge, List.any_eq_false]
      intro f hf
      simpa using hall f hf
    simp [export_image_strategy, hl, h1, h2, hj]
  · intro a b ha hb
    simp [export_image_strategy, is_jbig2_iamge, ha, hb]
  · intro a b ha hb
    simp [export_image_strategy, is_jbig2_iamge, ha, hb]

/-- Witness for C1: the two concrete chains of the claim. -/
theorem c1_export_classifier_witness :
    export_image_strategy
        [⟨FilterKind.jbig2, none⟩, ⟨FilterKind.dct, none⟩] =
      Strategy.passthroughJPEG
    ∧ export_image_strategy
        [⟨FilterKind.jbig2, none⟩, ⟨FilterKind.other, none⟩] =
      Strategy.jbig2Transcode :=
  ⟨c1_export_classifier.2.2.2.2.2.1 _ _ rfl rfl,
    c1_export_classifier.2.2.2.2.2.2 _ _ rfl rfl⟩


/-- Zero width, height or bit depth raises `ZeroDivisionError` before
`open(path, "wb")`: the save fails with that error and no file is
created. -/
theorem save_bytes_zero_division (dir : List String) (pil : Bool)
    (img : LTImage) (h : img.width = 0 ∨ img.height = 0 ∨ img.bits = 0) :
    (save_bytes dir pil img).result = Except.error SaveError.zeroDivisionError
    ∧ (save_bytes dir pil img).files_created = [] := by
  have hc : channel_count img = none := by
    unfold channel_count
    rw [if_pos h]
  constructor <;> simp [save_bytes, hc]

/-- The channel count of `bilevel_ragged_img` is the non-integer `8 / 3`. -/
theorem channel_count_bilevel_ragged :
    channel_count bilevel_ragged_img = some (8 / 3) := by
  simp only [channel_count, bilevel_ragged_img, List.length_cons, List.length_nil]
  norm_num

/-- `8 / 3` is not an integral rational. -/
theorem eight_thirds_not_int : ¬ ∃ n : ℤ, (8 / 3 : Rat) = (n : Rat) := by
  rintro ⟨n, hn⟩
  have h : (n : Rat) * 3 = 8 := by
    rw [← hn]
    norm_num
  have h2 : (n * 3 : ℤ) = 8 := by exact_mod_cast h
  omega

/-- The channel count of the 133-byte example is `133 / 100`. -/
theorem channel_count_png133 : channel_count png133_img = some (133 / 100) := by
  simp only [channel_count, png133_img, List.length_replicate]
  norm_num

/-- `133 / 100` is not an integral rational. -/
theorem not_int_133_100 : ¬ ∃ n : ℤ, (133 / 100 : Rat) = (n : Rat) := by
  rintro ⟨n, hn⟩
  have h : (n : Rat) * 100 = 133 := by
    rw [← hn]
    norm_num
  have h2 : (n * 100 : ℤ) = 133 := by exact_mod_cast h
  omega

/-- The channel count of the 300-byte example is 3. -/
theorem channel_count_png300 : channel_count png300_img = some 3 := by
  simp only [channel_count, png300_img, List.length_replicate]
  norm_num

/-- Counterexample to claim C2: for a 1-bit image with the non-integral
channel count `8 / 3`, the raw-bitmap save does not fail with
`UnsupportedPixelFormat`; it succeeds with the bilevel format. -/
theorem c2_counterexample :
    (¬ ∃ n : ℤ, channel_count bilevel_ragged_img = some ((n : Int) : Rat))
    ∧ (save_bytes [] true bilevel_ragged_img).result = Except.ok "img.png"
    ∧ (save_bytes [] true bilevel_ragged_img).handed =
        some (PixelFormat.bilevel, [0]) := by
  refine ⟨?_, by decide, by decide⟩
  rintro ⟨n, hn⟩
  rw [channel_count_bilevel_ragged] at hn
  simp only [Option.some.injEq] at hn
  exact eight_thirds_not_int ⟨n, hn⟩

/-- Claim C2 (amended): in the raw-bitmap path with the imaging capability
available, the channel-count division defined (nonzero width, height and
bit depth, witnessed by `channel_count img = some c`), and
`bitsPerComponent ≠ 1`, if the channel count is not an integer, or the
pair (bits, channels) is not one of the mapped combinations (8, 1),
(8, 3), (8, 4), the operation fails with `UnsupportedPixelFormat` and with
no other kind of failure. -/
theorem c2_unsupported_format (dir : List String) (img : LTImage) (c : Rat)
    (hc : channel_count img = some c)
    (h1 : img.bits ≠ 1)
    (h2 : (¬ ∃ n : ℤ, c = (n : Rat))
      ∨ ¬((img.bits = 8 ∧ c = 1)
          ∨ (img.bits = 8 ∧ c = 3)
          ∨ (img.bits = 8 ∧ c = 4))) :
    (save_bytes dir true img).result =
      Except.error SaveError.unsupportedPixelFormat := by
  have hm : pixel_mode img.bits c = none := by
    unfold pixel_mode
    split_ifs with hA hB hC hD
    · exact absurd hA h1
    · rcases h2 with h2 | h2
      · exact absurd ⟨1, by rw [hB.2]; norm_num⟩ h2
      · exact absurd (Or.inl hB) h2
    · rcases h2 with h2 | h2
      · exact absurd ⟨3, by rw [hC.2]; norm_num⟩ h2
      · exact absurd (Or.inr (Or.inl hC)) h2
    · rcases h2 with h2 | h2
      · exact absurd ⟨4, by rw [hD.2]; norm_num⟩ h2
      · exact absurd (Or.inr (Or.inr hD)) h2
    · rfl
  simp [save_bytes, hc, hm]

/-- Witness for the amended C2 at the spec's 133-byte example. -/
theorem c2_unsupported_format_witness :
    (channel_count png133_img = some (133 / 100)
      ∧ png133_img.bits ≠ 1
      ∧ ¬ ∃ n : ℤ, (133 / 100 : Rat) = (n : Rat))
    ∧ (save_bytes [] true png133_img).result =
        Except.error SaveError.unsupportedPixelFormat :=
  ⟨⟨channel_count_png133, by decide, not_int_133_100⟩,
    c2_unsupported_format [] png133_img (133 / 100) channel_count_png133
      (by decide) (Or.inl not_int_133_100)⟩

/-- Claim C6: in the raw-bitmap path, when the channel-count division is
defined, the pixel format chosen is bilevel whenever `bits = 1`, grayscale
for (8, 1), RGB for (8, 3), CMYK for (8, 4), and the packed bytes are
handed unmodified to the imaging capability. -/
theorem c6_pixel_format (dir : List String) (img : LTImage) (c : Rat)
    (hcc : channel_count img = some c) :
    (img.bits = 1 →
      (save_bytes dir true img).handed = some (PixelFormat.bilevel, img.data))
    ∧ (img.bits = 8 → c = 1 →
      (save_bytes dir true img).handed = some (PixelFormat.grayscale, img.data))
    ∧ (img.bits = 8 → c = 3 →
      (save_bytes dir true img).handed = some (PixelFormat.rgb, img.data))
    ∧ (img.bits = 8 → c = 4 →
      (save_bytes dir true img).handed = some (PixelFormat.cmyk, img.data)) := by
  refine ⟨?_, ?_, ?_, ?_⟩
  · intro h1
    simp [save_bytes, hcc, pixel_mode, h1]
  · intro h8 hc
    simp [save_bytes, hcc, pixel_mode, h8, hc]
  · intro h8 hc
    simp [save_bytes, hcc, pixel_mode, h8, hc]
  · intro h8 hc
    simp [save_bytes, hcc, pixel_mode, h8, hc]

/-- Witness for C6 at the spec's 300-byte example: the RGB format with the
bytes passed through unchanged. -/
theorem c6_pixel_format_witness :
    (channel_count png300_img = some 3 ∧ png300_img.bits = 8)
    ∧ (save_bytes [] true png300_img).handed =
        some (PixelFormat.rgb, png300_img.data) :=
  ⟨⟨channel_count_png300, by decide⟩,
    (c6_pixel_format [] png300_img 3 channel_count_png300).2.2.1 (by decide) rfl⟩

/-- When every JBIG2-family entry carries a globals reference, the globals
loop succeeds and collects exactly the globals-bearing JBIG2 entries. -/
theorem collect_globals_ok_of_all (fs : List FilterEntry)
    (hall : ∀ f ∈ fs, f.kind = FilterKind.jbig2 → f.globals.isSome) :
    ∃ gs, collect_globals fs = Except.ok gs
      ∧ gs.length = count_jbig2_globals fs := by
  induction fs with
  | nil => exact ⟨[], rfl, rfl⟩
  | cons f rest ih =>
    obtain ⟨gs, hgs, hlen⟩ := ih (fun x hx => hall x (List.mem_cons_of_mem f hx))
    have hcnt : count_jbig2_globals rest = gs.length := hlen.symm
    by_cases hk : f.kind = FilterKind.jbig2
    · have hs : f.globals.isSome := hall f (List.mem_cons_self f rest) hk
      obtain ⟨g, hg⟩ := Option.isSome_iff_exists.mp hs
      have hb : (f.kind == FilterKind.jbig2 && f.globals.isSome) = true := by
        simp [hk, hg]
      refine ⟨g :: gs, ?_, ?_⟩
      · simp [collect_globals, hk, hg, hgs]
      · simp [count_jbig2_globals, List.filter_cons, hb]
        simp [count_jbig2_globals] at hcnt
        omega
    · have hb : (f.kind == FilterKind.jbig2 && f.globals.isSome) = false := by
        simp [hk]
      refine ⟨gs, ?_, ?_⟩
      · simp [collect_globals, hk, hgs]
      · simp [count_jbig2_globals, List.filter_cons, hb]
        simp [count_jbig2_globals] at hcnt
        omega

/-- Counterexample to claim C4: a chain whose first JBIG2 entry carries no
globals while two later JBIG2 entries do carries more than one
globals-bearing JBIG2 entry, yet the export raises the `KeyError` of the
globals loop, not `InvalidGlobalsMultiplicity`. -/
theorem c4_counterexample :
    1 < count_jbig2_globals mixed_globals_img.filters
    ∧ (save_jbig2 [] mixed_globals_img).result ≠
        Except.error SaveError.invalidGlobalsMultiplicity
    ∧ (save_jbig2 [] mixed_globals_img).result =
        Except.error SaveError.jbig2GlobalsKeyError := by
  refine ⟨by decide, by decide, by decide⟩

/-- Claim C4 (amended): for every filter chain in which more than one
JBIG2-family entry carries a globals reference and every JBIG2-family entry
carries one, the JBIG2 transcode export raises
`InvalidGlobalsMultiplicity`, and the error is raised before any byte is
read from either the globals streams or the per-image stream. -/
theorem c4_globals_multiplicity (dir : List String) (img : LTImage)
    (hall : ∀ f ∈ img.filters, f.kind = FilterKind.jbig2 → f.globals.isSome)
    (hmult : 1 < count_jbig2_globals img.filters) :
    (save_jbig2 dir img).result = Except.error SaveError.invalidGlobalsMultiplicity
    ∧ (save_jbig2 dir img).bytes_read = [] := by
  obtain ⟨gs, hgs, hlen⟩ := collect_globals_ok_of_all img.filters hall
  have h1 : 1 < gs.length := by omega
  constructor <;> simp [save_jbig2, hgs, h1]

/-- Witness for the amended C4: two globals-bearing JBIG2 entries. -/
theorem c4_globals_multiplicity_witness :
    ((∀ f ∈ double_globals_img.filters,
        f.kind = FilterKind.jbig2 → f.globals.isSome)
      ∧ 1 < count_jbig2_globals double_globals_img.filters)
    ∧ (save_jbig2 [] double_globals_img).result =
        Except.error SaveError.invalidGlobalsMultiplicity
    ∧ (save_jbig2 [] double_globals_img).bytes_read = [] :=
  ⟨⟨by decide, by decide⟩,
    c4_globals_multiplicity [] double_globals_img (by decide) (by decide)⟩

/-- Claim C8 (divergence): an image that classifies as JBIG2 transcode but
whose single JBIG2 entry carries no globals reference does not export
successfully from the per-image stream alone; the unconditional
`params["JBIG2Globals"]` lookup raises `KeyError` before the segment reader
ever receives an input. -/
theorem c8_missing_globals_key_error :
    export_image_strategy no_globals_img.filters = Strategy.jbig2Transcode
    ∧ (∀ f ∈ no_globals_img.filters, f.globals = none)
    ∧ (save_jbig2 [] no_globals_img).result =
        Except.error SaveError.jbig2GlobalsKeyError
    ∧ (save_jbig2 [] no_globals_img).reader_input = none := by
  refine ⟨by decide, by decide, by decide, by decide⟩

/-- Claim C3 (divergence): both save routines create the output file with
`open(path, "wb")` before parsing or reconstruction can fail, so a failed
export leaves the newly created file in the output directory: the 133-byte
raw-bitmap example fails with `UnsupportedPixelFormat` leaving `img.png`,
and the double-globals JBIG2 example fails with
`InvalidGlobalsMultiplicity` leaving `img.jb2`. -/
theorem c3_partial_file_left :
    ((save_bytes [] true png133_img).result =
        Except.error SaveError.unsupportedPixelFormat
      ∧ (save_bytes [] true png133_img).files_created = ["img.png"])
    ∧ ((save_jbig2 [] double_globals_img).result =
        Except.error SaveError.invalidGlobalsMultiplicity
      ∧ (save_jbig2 [] double_globals_img).files_created = ["img.jb2"]) := by
  have hm : pixel_mode png133_img.bits (133 / 100) = none := by
    show pixel_mode 8 (133 / 100) = none
    norm_num [pixel_mode]
  refine ⟨⟨?_, ?_⟩, by decide, by decide⟩
  · simp [save_bytes, channel_count_png133, hm]
  · simp [save_bytes, channel_count_png133, hm]
    decide

/-- Elements surviving `dropWhile` at the head fail the predicate. -/
theorem head?_dropWhile_false {p : Nat → Bool} (xs : List Nat) (b : Nat)
    (h : (xs.dropWhile p).head? = some b) : p b = false := by
  induction xs with
  | nil => simp at h
  | cons x xs ih =>
    by_cases hp : p x = true
    · rw [List.dropWhile_cons_of_pos hp] at h
      exact ih h
    · rw [List.dropWhile_cons_of_neg hp] at h
      simp at h
      subst h
      simpa using hp
    
/-- The stripped globals payload differs from the original only by trailing
newline bytes. -/
theorem rstrip_newlines_spec (l : List Nat) :
    ∃ k, l = rstrip_newlines l ++ List.replicate k 10 := by
  refine ⟨(l.reverse.takeWhile (fun b => b == 10)).length, ?_⟩
  have hsplit :
      l.reverse.takeWhile (fun b => b == 10) ++ l.reverse.dropWhile (fun b => b == 10)
        = l.reverse := List.takeWhile_append_dropWhile (fun b => b == 10) l.reverse
  have hrep : l.reverse.takeWhile (fun b => b == 10)
      = List.replicate (l.reverse.takeWhile (fun b => b == 10)).length 10 := by
    apply List.eq_replicate_of_mem
    intro b hb
    have := List.mem_takeWhile_imp hb
    simpa using this
  calc l = l.reverse.reverse := (List.reverse_reverse l).symm
    _ = (l.reverse.takeWhile (fun b => b == 10) ++
          l.reverse.dropWhile (fun b => b == 10)).reverse := by rw [hsplit]
    _ = rstrip_newlines l ++ (l.reverse.takeWhile (fun b => b == 10)).reverse := by
          rw [List.reverse_append]; rfl
    _ = rstrip_newlines l
          ++ List.replicate (l.reverse.takeWhile (fun b => b == 10)).length 10 := by
          rw [hrep, List.reverse_replicate, List.length_replicate]

/-- After stripping, the globals payload no longer ends in a newline. -/
theorem rstrip_newlines_getLast (l : List Nat) (b : Nat)
    (h : (rstrip_newlines l).getLast? = some b) : b ≠ 10 := by
  unfold rstrip_newlines at h
  rw [List.getLast?_reverse] at h
  have := head?_dropWhile_false _ _ h
  simpa using this

/-- Claim C7: with exactly one collected globals stream, the buffer handed
to the segment reader is the globals payload with trailing newline bytes
stripped, concatenated with the untouched per-image payload; both streams
are read once, in that order. -/
theorem c7_globals_assembly (dir : List String) (img : LTImage) (g : List Nat)
    (h : collect_globals img.filters = Except.ok [g]) :
    (save_jbig2 dir img).reader_input = some (rstrip_newlines g ++ img.data)
    ∧ (save_jbig2 dir img).bytes_read = [g, img.data]
    ∧ (∃ k, g = rstrip_newlines g ++ List.replicate k 10)
    ∧ (∀ b, (rstrip_newlines g).getLast? = some b → b ≠ 10) := by
  refine ⟨?_, ?_, rstrip_newlines_spec g, fun b hb => rstrip_newlines_getLast g b hb⟩ <;>
    cases hseg : get_segments (rstrip_newlines g ++ img.data) <;>
      simp [save_jbig2, h, hseg]

/-- Witness for C7 at the concrete one-globals image. -/
theorem c7_globals_assembly_witness :
    collect_globals single_globals_img.filters = Except.ok [sample_globals]
    ∧ (save_jbig2 [] single_globals_img).reader_input =
        some (rstrip_newlines sample_globals ++ single_globals_img.data) :=
  ⟨by decide,
    (c7_globals_assembly [] single_globals_img sample_globals (by decide)).1⟩

/-- Claim C10: constructing an `ImageWriter` with a missing output directory
creates it, parents included, and an existing directory is left unchanged
(with all previously existing paths preserved). -/
theorem c10_init_creates_outdir (fs : List (List String)) (outdir : List String)
    (hne : outdir ≠ []) :
    (outdir ∈ fs → image_writer_init fs outdir = fs)
    ∧ (outdir ∉ fs →
        outdir ∈ image_writer_init fs outdir
        ∧ (∀ q ∈ path_ancestors outdir, q ∈ image_writer_init fs outdir)
        ∧ (∀ q ∈ fs, q ∈ image_writer_init fs outdir)) := by
  constructor
  · intro h
    simp [image_writer_init, h]
  · intro h
    have hsub : ∀ q ∈ path_ancestors outdir, q ∈ image_writer_init fs outdir := by
      intro q hq
      simp only [image_writer_init, if_neg h, makedirs, List.mem_append,
        List.mem_filter]
      by_cases hqf : q ∈ fs
      · exact Or.inl hqf
      · exact Or.inr ⟨hq, by simpa using hqf⟩
    refine ⟨?_, hsub, ?_⟩
    · apply hsub
      unfold path_ancestors
      have hpos : 0 < outdir.length := List.length_pos.mpr hne
      refine List.mem_map.mpr ⟨outdir.length - 1, ?_, ?_⟩
      · simp only [List.mem_range]
        omega
      · have heq : outdir.length - 1 + 1 = outdir.length := by omega
        rw [heq, List.take_length]
    · intro q hq
      simp only [image_writer_init, if_neg h, makedirs, List.mem_append]
      exact Or.inl hq

/-- Witness for C10 at the two-component path `a/b` over an empty
filesystem. -/
theorem c10_init_creates_outdir_witness :
    ((["a", "b"] : List String) ∈ ([] : List (List String)) →
      image_writer_init [] ["a", "b"] = [])
    ∧ ((["a", "b"] : List String) ∉ ([] : List (List String)) →
        ["a", "b"] ∈ image_writer_init [] ["a", "b"]
        ∧ (∀ q ∈ path_ancestors ["a", "b"], q ∈ image_writer_init [] ["a", "b"])
        ∧ (∀ q ∈ ([] : List (List String)), q ∈ image_writer_init [] ["a", "b"])) :=
  c10_init_creates_outdir [] ["a", "b"] (by decide)

/-- `Nat.toDigitsCore` with sufficient fuel computes `dec_digits`. -/
theorem toDigitsCore_eq_dec_digits (f : Nat) :
    ∀ n acc, n < f →
      Nat.toDigitsCore 10 f n acc = dec_digits n ++ acc := by
  induction f with
  | zero => intro n acc h; omega
  | succ f ih =>
    intro n acc h
    by_cases h0 : n / 10 = 0
    · have hn10 : n < 10 := by omega
      simp [Nat.toDigitsCore, h0, dec_digits, hn10, Nat.mod_eq_of_lt hn10]
    · have hn : ¬ n < 10 := by omega
      have hlt : n / 10 < f := by
        have hds : n / 10 < n := Nat.div_lt_self (by omega) (by omega)
        omega
      have hstep : Nat.toDigitsCore 10 (f + 1) n acc
          = Nat.toDigitsCore 10 f (n / 10) (Nat.digitChar (n % 10) :: acc) := by
        simp [Nat.toDigitsCore, h0]
      have hdd : dec_digits n = dec_digits (n / 10) ++ [Nat.digitChar (n % 10)] := by
        rw [dec_digits, if_neg hn]
      rw [hstep, ih (n / 10) _ hlt, hdd]
      simp

/-- `Nat.repr` is the string of the decimal digits. -/
theorem repr_eq_dec_digits (n : Nat) :
    Nat.repr n = (dec_digits n).asString := by
  have h := toDigitsCore_eq_dec_digits (n + 1) n [] (by omega)
  simp only [Nat.repr, Nat.toDigits, h, List.append_nil]

/-- Digit characters decode back to their digits. -/
theorem digitChar_decode : ∀ d < 10, (Nat.digitChar d).toNat - 48 = d := by
  decide

/-- `dec_val` is a left inverse of `dec_digits`. -/
theorem dec_val_dec_digits (n : Nat) : dec_val (dec_digits n) = n := by
  induction n using Nat.strong_induction_on with
  | _ n ih =>
    by_cases h : n < 10
    · rw [dec_digits, if_pos h]
      have := digitChar_decode n h
      simp [dec_val, this]
    · rw [dec_digits, if_neg h]
      have hds : n / 10 < n := Nat.div_lt_self (by omega) (by omega)
      have hmod : n % 10 < 10 := Nat.mod_lt _ (by omega)
      have hval := ih (n / 10) hds
      simp only [dec_val, List.foldl_append, List.foldl_cons, List.foldl_nil]
      simp only [dec_val] at hval
      rw [hval, digitChar_decode _ hmod]
      omega

/-- Strings with equal character lists are equal. -/
theorem string_data_injective (s t : String) (h : s.data = t.data) : s = t := by
  cases s
  cases t
  exact congrArg String.mk h

/-- `Nat.repr` is injective. -/
theorem nat_repr_injective (a b : Nat) (h : Nat.repr a = Nat.repr b) : a = b := by
  have hd : dec_digits a = dec_digits b := by
    have := congrArg String.data h
    rwa [repr_eq_dec_digits, repr_eq_dec_digits] at this
  calc a = dec_val (dec_digits a) := (dec_val_dec_digits a).symm
    _ = dec_val (dec_digits b) := by rw [hd]
    _ = b := dec_val_dec_digits b

/-- Decimal representations are nonempty. -/
theorem dec_digits_length_pos (n : Nat) : 0 < (dec_digits n).length := by
  rw [dec_digits]
  split
  · simp
  · simp

/-- Indexed candidate names are pairwise distinct. -/
theorem cand_name_inj (base ext : String) (i j : Nat)
    (h : cand_name base ext i = cand_name base ext j) : i = j := by
  have hd := congrArg String.data h
  simp only [cand_name, String.data_append, List.append_assoc,
    List.singleton_append] at hd
  have h1 := List.append_cancel_left hd
  injection h1 with _ h2
  have h3 := List.append_cancel_right h2
  exact nat_repr_injective i j (string_data_injective _ _ h3)

/-- The length of a string is the length of its character list. -/
theorem name_seq_inj (base ext : String) :
    Function.Injective (name_seq base ext) := by
  intro i j h
  match i, j with
  | 0, 0 => rfl
  | 0, k + 1 =>
    exfalso
    have hd := congrArg String.data h
    simp only [name_seq, cand_name, String.data_append] at hd
    have hlen := congrArg List.length hd
    have hrep : (Nat.repr k).data.length = (dec_digits k).length := by
      rw [repr_eq_dec_digits]
      rfl
    have hpos := dec_digits_length_pos k
    simp only [List.length_append, List.length_cons, List.length_nil] at hlen
    omega
  | k + 1, 0 =>
    exfalso
    have hd := congrArg String.data h
    simp only [name_seq, cand_name, String.data_append] at hd
    have hlen := congrArg List.length hd
    have hrep : (Nat.repr k).data.length = (dec_digits k).length := by
      rw [repr_eq_dec_digits]
      rfl
    have hpos := dec_digits_length_pos k
    simp only [List.length_append, List.length_cons, List.length_nil] at hlen
    omega
  | i + 1, j + 1 =>
    exact congrArg (· + 1) (cand_name_inj base ext i j h)

/-- A run of distinct names all present in the directory is no longer than
the directory. -/
theorem seq_busy_le (dir : List String) (base ext : String) (k : Nat)
    (hbusy : ∀ j < k, name_seq base ext j ∈ dir) : k ≤ dir.length := by
  classical
  have hcard : (Finset.univ : Finset (Fin k)).card ≤ dir.toFinset.card := by
    apply Finset.card_le_card_of_injOn (fun j : Fin k => name_seq base ext j)
    · intro a _
      simp only [List.mem_toFinset]
      exact hbusy a a.2
    · intro a _ b _ hab
      exact Fin.ext (name_seq_inj base ext hab)
  have h1 : (Finset.univ : Finset (Fin k)).card = k := by simp
  have h2 := dir.toFinset_card_le
  omega

/-- The collision loop returns the first free name of the try sequence. -/
theorem unique_name_loop_finds (dir : List String) (base ext : String) :
    ∀ fuel m k, m ≤ k → k - m < fuel →
      name_seq base ext k ∉ dir →
      (∀ j, m ≤ j → j < k → name_seq base ext j ∈ dir) →
      unique_name_loop dir base ext fuel (name_seq base ext m) m
        = name_seq base ext k := by
  intro fuel
  induction fuel with
  | zero =>
    intro m k h1 h2 _ _
    omega
  | succ fuel ih =>
    intro m k h1 h2 hfree hbusy
    by_cases hmk : m = k
    · subst hmk
      simp [unique_name_loop, hfree]
    · have hm : name_seq base ext m ∈ dir := hbusy m le_rfl (by omega)
      have hcand : cand_name base ext m = name_seq base ext (m + 1) := rfl
      simp only [unique_name_loop, if_pos hm, hcand]
      exact ih (m + 1) k (by omega) (by omega) hfree
        (fun j hj1 hj2 => hbusy j (by omega) hj2)

/-- Claim C9: the assigned file name is `base ++ ext` when free, otherwise
the first free name among `base.0.ext`, `base.1.ext`, ...; in particular
two resources named `img` with extension `.png` get `img.png` then
`img.0.png`. -/
theorem c9_unique_name (dir : List String) (base ext : String) :
    (base ++ ext ∉ dir → create_unique_image_name dir base ext = base ++ ext)
    ∧ (∀ k, base ++ ext ∈ dir → cand_name base ext k ∉ dir →
        (∀ j < k, cand_name base ext j ∈ dir) →
        create_unique_image_name dir base ext = cand_name base ext k)
    ∧ create_unique_image_name [] "img" ".png" = "img.png"
    ∧ create_unique_image_name ["img.png"] "img" ".png" = "img.0.png" := by
  refine ⟨?_, ?_, by decide, by decide⟩
  · intro hfree
    exact unique_name_loop_finds dir base ext (dir.length + 1) 0 0 le_rfl
      (by omega) hfree (by omega)
  · intro k hbase hfree hbusy
    have hbusy' : ∀ j, 0 ≤ j → j < k + 1 → name_seq base ext j ∈ dir := by
      intro j _ hj
      match j with
      | 0 => exact hbase
      | j + 1 => exact hbusy j (by omega)
    have hk1 : k + 1 ≤ dir.length :=
      seq_busy_le dir base ext (k + 1) (fun j hj => hbusy' j (by omega) hj)
    exact unique_name_loop_finds dir base ext (dir.length + 1) 0 (k + 1) (by omega)
      (by omega) hfree hbusy'

/-- Witness for C9: in a directory already holding `img.png`, index 0 is
assigned. -/
theorem c9_unique_name_witness :
    create_unique_image_name ["img.png"] "img" ".png" = cand_name "img" ".png" 0 :=
  (c9_unique_name ["img.png"] "img" ".png").2.1 0 (by decide) (by decide)
    (fun j hj => absurd hj (Nat.not_lt_zero j))

/-- Anatomy of `take_exact`: the taken bytes are a length-`n` decomposition
of the buffer. -/
theorem take_exact_anatomy :
    ∀ (n : Nat) (buf xs r : List Nat), take_exact n buf = some (xs, r) →
      xs.length = n ∧ buf = xs ++ r := by
  intro n
  induction n with
  | zero =>
    intro buf xs r h
    simp only [take_exact, Option.some.injEq, Prod.mk.injEq] at h
    obtain ⟨h1, h2⟩ := h
    subst h1
    subst h2
    exact ⟨rfl, rfl⟩
  | succ n ih =>
    intro buf xs r h
    cases buf with
    | nil => simp [take_exact] at h
    | cons b rest =>
      simp only [take_exact] at h
      cases htk : take_exact n rest with
      | none => rw [htk] at h; simp at h
      | some p =>
        obtain ⟨xs1, r1⟩ := p
        rw [htk] at h
        simp only [Option.some.injEq, Prod.mk.injEq] at h
        obtain ⟨h1, h2⟩ := h
        obtain ⟨hlen, heq⟩ := ih rest xs1 r1 htk
        subst h1
        subst h2
        subst heq
        exact ⟨by simp [hlen], rfl⟩

/-- Appending a byte multiplies the big-endian value by 256. -/
theorem be_val_append (xs : List Nat) (x : Nat) :
    be_val (xs ++ [x]) = be_val xs * 256 + x := by
  simp [be_val, List.foldl_append]

/-- Prepending a byte adds it at the top power. -/
theorem be_val_cons (xs : List Nat) (x : Nat) :
    be_val (x :: xs) = x * 256 ^ xs.length + be_val xs := by
  induction xs using List.reverseRecOn with
  | nil => simp [be_val]
  | append_singleton ys y ih =>
    have h1 : x :: (ys ++ [y]) = (x :: ys) ++ [y] := rfl
    rw [h1, be_val_append, ih, be_val_append]
    simp [List.length_append, pow_succ]
    ring

/-- Bound on the big-endian value of bounded bytes. -/
theorem be_val_lt (xs : List Nat) (hb : ∀ b ∈ xs, b < 256) :
    be_val xs < 256 ^ xs.length := by
  induction xs using List.reverseRecOn with
  | nil => simp [be_val]
  | append_singleton ys y ih =>
    have h1 : be_val ys < 256 ^ ys.length :=
      ih (fun b hbm => hb b (List.mem_append_left _ hbm))
    have h2 : y < 256 := hb y (List.mem_append_right _ (List.mem_singleton_self y))
    rw [be_val_append]
    calc be_val ys * 256 + y < (be_val ys + 1) * 256 := by omega
      _ ≤ 256 ^ ys.length * 256 := Nat.mul_le_mul_right _ (by omega)
      _ = 256 ^ (ys ++ [y]).length := by simp [List.length_append, pow_succ]

/-- `write_be_bytes` produces exactly `n` bytes. -/
theorem write_be_bytes_length (n v : Nat) : (write_be_bytes n v).length = n := by
  induction n generalizing v with
  | zero => rfl
  | succ n ih => simp [write_be_bytes, ih]

/-- `write_be_bytes` inverts `be_val` on bounded byte lists. -/
theorem write_be_bytes_be_val (xs : List Nat) (hb : ∀ b ∈ xs, b < 256) :
    write_be_bytes xs.length (be_val xs) = xs := by
  induction xs using List.reverseRecOn with
  | nil => rfl
  | append_singleton ys y ih =>
    have hys : ∀ b ∈ ys, b < 256 := fun b hbm => hb b (List.mem_append_left _ hbm)
    have hy : y < 256 := hb y (List.mem_append_right _ (List.mem_singleton_self y))
    have hlen : (ys ++ [y]).length = ys.length + 1 := by simp
    rw [hlen, be_val_append, write_be_bytes]
    have hdiv : (be_val ys * 256 + y) / 256 = be_val ys := by omega
    have hmod : (be_val ys * 256 + y) % 256 = y := by omega
    rw [hdiv, hmod, ih hys]

/-- Anatomy of `read_be`: the value is the big-endian decoding of the
`n`-byte prefix. -/
theorem read_be_anatomy (n : Nat) (buf : List Nat) (v : Nat) (r : List Nat)
    (h : read_be n buf = some (v, r)) :
    ∃ xs, xs.length = n ∧ buf = xs ++ r ∧ v = be_val xs := by
  unfold read_be at h
  cases htk : take_exact n buf with
  | none => rw [htk] at h; simp at h
  | some p =>
    obtain ⟨xs, r1⟩ := p
    rw [htk] at h
    simp only [Option.some.injEq, Prod.mk.injEq] at h
    obtain ⟨h1, h2⟩ := h
    obtain ⟨hlen, heq⟩ := take_exact_anatomy n buf xs r1 htk
    subst h2
    exact ⟨xs, hlen, heq, h1.symm⟩

/-- Anatomy of `parse_ref_info`: the consumed bytes re-serialize to
themselves via `ref_info_bytes`. -/
theorem parse_ref_info_anatomy (b : Nat) (r : List Nat) (info : RefCountInfo)
    (r' : List Nat) (h : parse_ref_info b r = some (info, r')) :
    ∃ pre, r = pre ++ r'
      ∧ (b < 256 → (∀ x ∈ pre, x < 256) → ref_info_bytes info = b :: pre) := by
  unfold parse_ref_info at h
  by_cases h7 : b / 32 = 7
  · rw [if_pos h7] at h
    split at h
    · exact absurd h (by simp)
    · rename_i rest3 ra h3
      split at h
      · exact absurd h (by simp)
      · rename_i ret rb h4
        simp only [Option.some.injEq, Prod.mk.injEq] at h
        obtain ⟨hinfo, hr⟩ := h
        subst hinfo
        subst hr
        obtain ⟨hlen3, heq3⟩ := take_exact_anatomy _ _ _ _ h3
        obtain ⟨hlenR, heqR⟩ := take_exact_anatomy _ _ _ _ h4
        refine ⟨rest3 ++ ret, ?_, ?_⟩
        · rw [heq3, heqR, List.append_assoc]
        · intro hblt hx
          have hrest3 : ∀ x ∈ rest3, x < 256 :=
            fun x hm => hx x (List.mem_append_left _ hm)
          have hcons : ∀ x ∈ b :: rest3, x < 256 := by
            intro x hm
            rcases List.mem_cons.mp hm with hcase | hcase
            · subst hcase; exact hblt
            · exact hrest3 x hcase
          have hbv : be_val (b :: rest3) = b * 256 ^ 3 + be_val rest3 := by
            rw [be_val_cons, hlen3]
          have hw : be_val rest3 < 256 ^ 3 := by
            have := be_val_lt rest3 hrest3
            rwa [hlen3] at this
          have hsum : 7 * 2 ^ 29 + be_val (b :: rest3) % 2 ^ 29
              = be_val (b :: rest3) := by
            have e1 : (256 : Nat) ^ 3 = 16777216 := by norm_num
            have e2 : (2 : Nat) ^ 29 = 536870912 := by norm_num
            rw [e2, hbv, e1]
            rw [e1] at hw
            omega
          show write_be_bytes 4 (7 * 2 ^ 29 + be_val (b :: rest3) % 2 ^ 29) ++ ret
            = b :: (rest3 ++ ret)
          rw [hsum]
          have hwr : write_be_bytes 4 (be_val (b :: rest3)) = b :: rest3 := by
            have := write_be_bytes_be_val (b :: rest3) hcons
            rwa [List.length_cons, hlen3] at this
          rw [hwr]
          simp
  · rw [if_neg h7] at h
    simp only [Option.some.injEq, Prod.mk.injEq] at h
    obtain ⟨hinfo, hr⟩ := h
    subst hinfo
    subst hr
    exact ⟨[], by simp, fun _ _ => rfl⟩

/-- Anatomy of `read_refs`: the values re-serialize to the consumed bytes
via `write_refs`. -/
theorem read_refs_anatomy (w : Nat) :
    ∀ (c : Nat) (buf vs r : List Nat), read_refs w c buf = some (vs, r) →
      vs.length = c ∧ ∃ pre, buf = pre ++ r
        ∧ ((∀ x ∈ pre, x < 256) → write_refs w vs = pre) := by
  intro c
  induction c with
  | zero =>
    intro buf vs r h
    simp only [read_refs, Option.some.injEq, Prod.mk.injEq] at h
    obtain ⟨h1, h2⟩ := h
    subst h1
    subst h2
    exact ⟨rfl, [], rfl, fun _ => rfl⟩
  | succ c ih =>
    intro buf vs r h
    simp only [read_refs] at h
    split at h
    · exact absurd h (by simp)
    · rename_i v r1 hrb
      split at h
      · exact absurd h (by simp)
      · rename_i vs1 r2 hrr
        simp only [Option.some.injEq, Prod.mk.injEq] at h
        obtain ⟨h1, h2⟩ := h
        subst h1
        subst h2
        obtain ⟨xs, hxlen, hxeq, hxval⟩ := read_be_anatomy w buf v r1 hrb
        obtain ⟨hlen1, pre1, heq1, hser1⟩ := ih r1 vs1 r2 hrr
        refine ⟨by simp [hlen1], xs ++ pre1, ?_, ?_⟩
        · rw [hxeq, heq1, List.append_assoc]
        · intro hx
          have hxs : ∀ x ∈ xs, x < 256 := fun x hm => hx x (List.mem_append_left _ hm)
          have hpre1 : ∀ x ∈ pre1, x < 256 :=
            fun x hm => hx x (List.mem_append_right _ hm)
          show write_refs w (v :: vs1) = xs ++ pre1
          unfold write_refs
          rw [hser1 hpre1, hxval]
          have hwx : write_be_bytes w (be_val xs) = xs := by
            have := write_be_bytes_be_val xs hxs
            rwa [hxlen] at this
          rw [hwx]

set_option maxHeartbeats 1000000 in
/-- Anatomy of `parse_segment`: a successfully parsed segment re-serializes
to exactly the consumed bytes (when the buffer holds genuine bytes), and at
least the four segment-number bytes are consumed. -/
theorem parse_segment_anatomy (buf : List Nat) (s : Segment) (rest : List Nat)
    (h : parse_segment buf = Except.ok (s, rest)) :
    ∃ pre, buf = pre ++ rest ∧ 4 ≤ pre.length
      ∧ ((∀ x ∈ buf, x < 256) → serialize_segment s = pre) := by
  unfold parse_segment at h
  split at h
  · exact absurd h (by simp)
  · rename_i number r1 hn
    split at h
    · exact absurd h (by simp)
    · rename_i flags r2
      split at h
      · exact absurd h (by simp)
      · rename_i b r3
        split at h
        · exact absurd h (by simp)
        · rename_i info r4 hri
          split at h
          · exact absurd h (by simp)
          · rename_i refs r5 hrr
            split at h
            · exact absurd h (by simp)
            · rename_i pa r6 hpa
              split at h
              · exact absurd h (by simp)
              · rename_i dataLength r7 hdl
                split at h
                · exact absurd h (by simp)
                · rename_i hsent
                  split at h
                  · exact absurd h (by simp)
                  · rename_i payload r8 hpl
                    simp only [Except.ok.injEq, Prod.mk.injEq] at h
                    obtain ⟨hseg, hrest⟩ := h
                    subst hrest
                    subst hseg
                    obtain ⟨xs1, hxs1len, hbufeq, hnval⟩ :=
                      read_be_anatomy 4 buf number _ hn
                    obtain ⟨pre2, h3eq, hser2⟩ :=
                      parse_ref_info_anatomy b r3 info r4 hri
                    obtain ⟨_, pre3, h4eq, hser3⟩ :=
                      read_refs_anatomy (ref_number_size number)
                        (ref_count info) r4 refs r5 hrr
                    obtain ⟨xs4, hxs4len, h5eq, hpaval⟩ :=
                      read_be_anatomy (page_assoc_size flags) r5 pa r6 hpa
                    obtain ⟨xs5, hxs5len, h6eq, hdlval⟩ :=
                      read_be_anatomy 4 r6 dataLength r7 hdl
                    obtain ⟨hpllen, h7eq⟩ :=
                      take_exact_anatomy dataLength r7 payload r8 hpl
                    have hmaster : buf = xs1 ++ flags :: b ::
                        (pre2 ++ (pre3 ++ (xs4 ++ (xs5 ++ (payload ++ r8))))) := by
                      rw [hbufeq, h3eq, h4eq, h5eq, h6eq, h7eq]
                    refine ⟨xs1 ++ flags :: b ::
                        (pre2 ++ (pre3 ++ (xs4 ++ (xs5 ++ payload)))), ?_, ?_, ?_⟩
                    · rw [hmaster]
                      simp [List.append_assoc]
                    · simp [List.length_append, hxs1len]
                    · intro hb
                      have hmem : ∀ x, (x ∈ xs1 ∨ x = flags ∨ x = b ∨ x ∈ pre2
                          ∨ x ∈ pre3 ∨ x ∈ xs4 ∨ x ∈ xs5 ∨ x ∈ payload) → x < 256 := by
                        intro x hx
                        apply hb
                        rw [hmaster]
                        simp only [List.mem_append, List.mem_cons]
                        tauto
                      have hw1 : write_be_bytes 4 number = xs1 := by
                        rw [hnval, ← hxs1len]
                        exact write_be_bytes_be_val xs1
                          (fun x hm => hmem x (Or.inl hm))
                      have hw2 : ref_info_bytes info = b :: pre2 :=
                        hser2 (hmem b (Or.inr (Or.inr (Or.inl rfl))))
                          (fun x hm => hmem x (Or.inr (Or.inr (Or.inr (Or.inl hm)))))
                      have hw3 : write_refs (ref_number_size number) refs = pre3 :=
                        hser3 (fun x hm =>
                          hmem x (Or.inr (Or.inr (Or.inr (Or.inr (Or.inl hm))))))
                      have hw4 : write_be_bytes (page_assoc_size flags) pa = xs4 := by
                        rw [hpaval, ← hxs4len]
                        exact write_be_bytes_be_val xs4 (fun x hm =>
                          hmem x (Or.inr (Or.inr (Or.inr (Or.inr (Or.inr (Or.inl hm)))))))
                      have hw5 : write_be_bytes 4 payload.length = xs5 := by
                        rw [hpllen, hdlval, ← hxs5len]
                        exact write_be_bytes_be_val xs5 (fun x hm =>
                          hmem x (Or.inr (Or.inr (Or.inr (Or.inr (Or.inr
                            (Or.inr (Or.inl hm))))))))
                      simp only [serialize_segment]
                      rw [hw1, hw2, hw3, hw4, hw5]
                      simp [List.append_assoc]

/-- The segment loop inverts serialization: a successful parse of a bounded
buffer re-serializes to exactly that buffer. -/
theorem get_segments_fuel_inv :
    ∀ (fuel : Nat) (buf : List Nat) (segs : List Segment), buf.length ≤ fuel →
      (∀ x ∈ buf, x < 256) → get_segments_fuel fuel buf = Except.ok segs →
      write_segments segs = buf := by
  intro fuel
  induction fuel with
  | zero =>
    intro buf segs hlen hb h
    cases buf with
    | nil =>
      simp only [get_segments_fuel, Except.ok.injEq] at h
      subst h
      rfl
    | cons b rest => simp at hlen
  | succ fuel ih =>
    intro buf segs hlen hb h
    cases buf with
    | nil =>
      simp only [get_segments_fuel, Except.ok.injEq] at h
      subst h
      rfl
    | cons b rest0 =>
      simp only [get_segments_fuel] at h
      split at h
      · exact absurd h (by simp)
      · rename_i s rest hp
        split at h
        · exact absurd h (by simp)
        · rename_i segs1 hg
          simp only [Except.ok.injEq] at h
          subst h
          obtain ⟨pre, heq, hlen4, hser⟩ := parse_segment_anatomy _ _ _ hp
          have hrb : ∀ x ∈ rest, x < 256 := by
            intro x hm
            apply hb
            rw [heq]
            exact List.mem_append_right _ hm
          have hleq := congrArg List.length heq
          simp only [List.length_append, List.length_cons] at hleq
          have hlen' : rest0.length + 1 ≤ fuel + 1 := by simpa using hlen
          have hrlen : rest.length ≤ fuel := by omega
          have hws := ih rest segs1 hrlen hrb hg
          show serialize_segment s ++ write_segments segs1 = b :: rest0
          rw [hws, hser hb, ← heq]

/-- Claim C5: for any segment stream assembled from an optional globals
prefix and a per-image stream, a successful parse into `N` segments
re-serializes, through the container writer, to exactly the synthesized
8-byte-identifier-plus-flags envelope followed by the assembled input
byte-for-byte; re-reading the written segment area reproduces the identical
segment records (payloads and referred/retention/page-association fields
byte-identical). -/
theorem c5_round_trip (g : Option (List Nat)) (img : List Nat)
    (segs : List Segment)
    (hb : ∀ x ∈ assemble_input g img, x < 256)
    (h : read_segments g img = Except.ok segs) :
    write_container segs
      = jbig2_file_magic ++ jbig2_file_org_flags :: assemble_input g img
    ∧ get_segments (write_segments segs) = Except.ok segs := by
  have hw : write_segments segs = assemble_input g img :=
    get_segments_fuel_inv _ _ _ le_rfl hb h
  constructor
  · rw [write_container, hw]
  · rw [hw]
    exact h

/-- Witness for C5 at a concrete two-segment stream (one globals segment
with a trailing newline, one per-image segment). -/
theorem c5_round_trip_witness :
    read_segments (some sample_globals) sample_image_bytes
        = Except.ok sample_segments
    ∧ write_container sample_segments
        = jbig2_file_magic ++ jbig2_file_org_flags ::
            assemble_input (some sample_globals) sample_image_bytes :=
  ⟨by decide,
    (c5_round_trip (some sample_globals) sample_image_bytes sample_segments
      (by decide) (by decide)).1⟩
